import Mathlib

/-!
Shallow embedding of `rational.h` / `rational.cpp`: an exact rational-number
class storing a numerator and a denominator as signed integers.  The C++
fields are `std::int64_t`; signed overflow is undefined behavior in C++ and
the repository documents overflow as an accepted, unchecked limitation, so
the embedding uses unbounded `Int`, which agrees with the source wherever no
intermediate product leaves the 64-bit range.  Throwing constructors and
operators are embedded as `Except` with the exact message strings thrown.
-/

/-- The `rational` class: numerator and denominator fields. -/
structure rational where
  num : Int
  denom : Int
deriving DecidableEq

namespace rational

/-- Tail of `rational::simplify`: the in-place sign fix after both fields have
been divided by the gcd.  `^` on C++ bools is xor. -/
def sign_fix (r : rational) : rational :=
  if (decide (r.num < 0)).xor (decide (r.denom < 0)) then
    { num := -|r.num|, denom := |r.denom| }
  else if r.num < 0 ∧ r.denom < 0 then
    { num := -r.num, denom := -r.denom }
  else r

/-- `rational::simplify`: divide both fields by `std::gcd(num, denom)` (the
gcd of the absolute values, a nonnegative value), then fix the signs.  Both
divisions are exact, so C++ truncating division and Lean `Int` division
agree here. -/
def simplify (r : rational) : rational :=
  sign_fix { num := r.num / (Int.gcd r.num r.denom : Int),
             denom := r.denom / (Int.gcd r.num r.denom : Int) }

/-- `rational::rational(integer)`: whole-number constructor, denominator 1. -/
def ofInt (value : Int) : rational := { num := value, denom := 1 }

/-- `rational::rational(integer, integer)`: throws `std::invalid_argument`
when the denominator is zero, otherwise stores the raw pair and simplifies. -/
def make (numerator denominator : Int) : Except String rational :=
  if denominator = 0 then Except.error "Denominator must be non-zero."
  else Except.ok (simplify { num := numerator, denom := denominator })

/-- `rational::operator=`: copy both fields of `other` into `*this`; the
result is the new state of `*this`. -/
def assign (self other : rational) : rational :=
  { num := other.num, denom := other.denom }

/-- `rational::numerator()`. -/
def numerator (r : rational) : Int := r.num

/-- `rational::denominator()`. -/
def denominator (r : rational) : Int := r.denom

/-- Unary `rational::operator+`: `rational(abs(num), abs(denom))`, going
through the two-argument constructor. -/
def uplus (r : rational) : Except String rational := make |r.num| |r.denom|

/-- Unary `rational::operator-`: `rational(-num, denom)`, going through the
two-argument constructor. -/
def uminus (r : rational) : Except String rational := make (-r.num) r.denom

/-- `rational::operator+=`: cross-multiplied sum, then simplify. -/
def addAssign (self other : rational) : rational :=
  simplify { num := self.num * other.denom + self.denom * other.num,
             denom := self.denom * other.denom }

/-- `rational::operator-=`: cross-multiplied difference, then simplify. -/
def subAssign (self other : rational) : rational :=
  simplify { num := self.num * other.denom - self.denom * other.num,
             denom := self.denom * other.denom }

/-- `rational::operator*=`: componentwise product, then simplify. -/
def mulAssign (self other : rational) : rational :=
  simplify { num := self.num * other.num,
             denom := self.denom * other.denom }

/-- `rational::operator/=`: throws `std::invalid_argument` before any mutation
when `other.num == 0`; the error value carries the state of `*this` at the
moment the exception escapes.  Otherwise cross-multiply and simplify. -/
def divAssign (self other : rational) : Except (String × rational) rational :=
  if other.num = 0 then Except.error ("Cannot divide by zero.", self)
  else Except.ok (simplify { num := self.num * other.denom,
                             denom := self.denom * other.num })

/-- Binary `operator+`: the left operand is passed by value (a copy) and the
compound form mutates only that copy.  The result triple is (returned value,
final state of the caller's left argument, final state of the caller's right
argument). -/
def addOp (a b : rational) : rational × rational × rational :=
  let left := a
  (addAssign left b, a, b)

/-- Binary `operator-`, with the same operand-state convention as `addOp`. -/
def subOp (a b : rational) : rational × rational × rational :=
  let left := a
  (subAssign left b, a, b)

/-- Binary `operator*`, with the same operand-state convention as `addOp`. -/
def mulOp (a b : rational) : rational × rational × rational :=
  let left := a
  (mulAssign left b, a, b)

/-- Binary `operator/`, with the same operand-state convention as `addOp`; on
throw the error value carries the final states of both caller arguments. -/
def divOp (a b : rational) :
    Except (String × rational × rational) (rational × rational × rational) :=
  match divAssign a b with
  | Except.ok l => Except.ok (l, a, b)
  | Except.error (e, _) => Except.error (e, a, b)

/-- Prefix `rational::operator++`: `num += abs(denom)`, no renormalization. -/
def incr (r : rational) : rational := { num := r.num + |r.denom|, denom := r.denom }

/-- Postfix `rational::operator++(int)`: the pair (returned old value, new
state after the prefix increment). -/
def postIncr (r : rational) : rational × rational := (r, incr r)

/-- Prefix `rational::operator--`: `num -= abs(denom)`, no renormalization. -/
def decr (r : rational) : rational := { num := r.num - |r.denom|, denom := r.denom }

/-- Postfix `rational::operator--(int)`: the pair (returned old value, new
state after the prefix decrement). -/
def postDecr (r : rational) : rational × rational := (r, decr r)

/-- The effective sign computed by the comparison operators:
`(num < 0) ^ (denom < 0)`. -/
def sign_neg (r : rational) : Bool := (decide (r.num < 0)).xor (decide (r.denom < 0))

/-- `operator==`: signs must match, then compare absolute cross products. -/
def beq (l r : rational) : Bool :=
  if sign_neg l != sign_neg r then false
  else decide (|l.num * r.denom| = |l.denom * r.num|)

/-- `operator!=`: `!(left == right)`. -/
def bneq (l r : rational) : Bool := !(beq l r)

/-- `operator<`: if signs differ the negative side is smaller; otherwise
compare absolute cross products, reversed when both sides are negative. -/
def blt (l r : rational) : Bool :=
  if sign_neg l != sign_neg r then sign_neg l
  else if sign_neg l then decide (|l.num * r.denom| > |l.denom * r.num|)
  else decide (|l.num * r.denom| < |l.denom * r.num|)

/-- `operator>`: `right < left`. -/
def bgt (l r : rational) : Bool := blt r l

/-- `operator<=`: `!(left > right)`. -/
def ble (l r : rational) : Bool := !(bgt l r)

/-- `operator>=`: `!(left < right)`. -/
def bge (l r : rational) : Bool := !(blt l r)

/-- The class invariant stated in the header and README: strictly positive
denominator and coprime fields (`Int.gcd` is the gcd of absolute values). -/
def normalized (r : rational) : Prop := 0 < r.denom ∧ Int.gcd r.num r.denom = 1

instance (r : rational) : Decidable (normalized r) :=
  inferInstanceAs (Decidable (_ ∧ _))

/-- The exact mathematical value of the stored pair. -/
def toRat (r : rational) : ℚ := (r.num : ℚ) / (r.denom : ℚ)

end rational

namespace rational

theorem num_div_gcd_mul (r : rational) :
    r.num / (Int.gcd r.num r.denom : Int) * (Int.gcd r.num r.denom : Int) = r.num :=
  Int.ediv_mul_cancel Int.gcd_dvd_left

theorem denom_div_gcd_mul (r : rational) :
    r.denom / (Int.gcd r.num r.denom : Int) * (Int.gcd r.num r.denom : Int) = r.denom :=
  Int.ediv_mul_cancel Int.gcd_dvd_right

theorem denom_div_gcd_ne_zero (r : rational) (hd : r.denom ≠ 0) :
    r.denom / (Int.gcd r.num r.denom : Int) ≠ 0 := by
  intro h
  apply hd
  rw [← denom_div_gcd_mul r, h, zero_mul]

theorem sign_fix_denom_pos (r : rational) (hd : r.denom ≠ 0) : 0 < (sign_fix r).denom := by
  unfold sign_fix
  by_cases hn : r.num < 0 <;> by_cases hdm : r.denom < 0 <;>
    simp [hn, hdm, abs_pos] <;> omega

theorem sign_fix_gcd (r : rational) :
    Int.gcd (sign_fix r).num (sign_fix r).denom = Int.gcd r.num r.denom := by
  unfold sign_fix
  split_ifs <;> simp [Int.gcd_def, Int.natAbs_neg, Int.natAbs_abs]

theorem toRat_neg_neg (n d : Int) :
    toRat { num := -n, denom := -d } = toRat { num := n, denom := d } := by
  unfold toRat
  push_cast
  exact neg_div_neg_eq _ _

theorem sign_fix_toRat (r : rational) : toRat (sign_fix r) = toRat r := by
  unfold sign_fix
  by_cases hn : r.num < 0 <;> by_cases hdm : r.denom < 0
  · simp only [hn, hdm, decide_True, Bool.xor_self, Bool.false_eq_true, if_false, and_self,
      if_true]
    exact toRat_neg_neg r.num r.denom
  · simp [hn, hdm]
    rw [abs_of_neg hn, abs_of_nonneg (not_lt.mp hdm), neg_neg]
  · simp [hn, hdm]
    rw [abs_of_nonneg (not_lt.mp hn), abs_of_neg hdm]
    exact toRat_neg_neg r.num r.denom
  · simp [hn, hdm]

theorem simplify_normalized (r : rational) (hd : r.denom ≠ 0) : normalized (simplify r) := by
  have hg : 0 < Int.gcd r.num r.denom := Int.gcd_pos_of_ne_zero_right r.num hd
  unfold simplify normalized
  rw [sign_fix_gcd]
  exact ⟨sign_fix_denom_pos _ (denom_div_gcd_ne_zero r hd), Int.gcd_div_gcd_div_gcd hg⟩

theorem toRat_div_gcd (r : rational) :
    toRat { num := r.num / (Int.gcd r.num r.denom : Int),
            denom := r.denom / (Int.gcd r.num r.denom : Int) } = toRat r := by
  rcases eq_or_ne (Int.gcd r.num r.denom) 0 with h0 | h0
  · obtain ⟨hn, hdm⟩ := Int.gcd_eq_zero_iff.mp h0
    simp [toRat, hn, hdm]
  · have hgz : (Int.gcd r.num r.denom : Int) ≠ 0 := by exact_mod_cast h0
    have hq : ((Int.gcd r.num r.denom : Int) : ℚ) ≠ 0 := Int.cast_ne_zero.mpr hgz
    calc toRat { num := r.num / (Int.gcd r.num r.denom : Int),
                 denom := r.denom / (Int.gcd r.num r.denom : Int) }
        = ((r.num / (Int.gcd r.num r.denom : Int) : Int) : ℚ) /
          ((r.denom / (Int.gcd r.num r.denom : Int) : Int) : ℚ) := rfl
      _ = ((r.num / (Int.gcd r.num r.denom : Int) : Int) : ℚ) *
            ((Int.gcd r.num r.denom : Int) : ℚ) /
          (((r.denom / (Int.gcd r.num r.denom : Int) : Int) : ℚ) *
            ((Int.gcd r.num r.denom : Int) : ℚ)) := (mul_div_mul_right _ _ hq).symm
      _ = toRat r := by
          rw [← Int.cast_mul, ← Int.cast_mul, num_div_gcd_mul, denom_div_gcd_mul]
          rfl

theorem toRat_simplify (r : rational) : toRat (simplify r) = toRat r := by
  unfold simplify
  rw [sign_fix_toRat, toRat_div_gcd]

theorem sign_fix_eq_self (r : rational) (hd : 0 < r.denom) : sign_fix r = r := by
  unfold sign_fix
  have hdm : ¬ r.denom < 0 := not_lt.mpr hd.le
  by_cases hn : r.num < 0
  · simp [hn, hdm]
    rw [abs_of_neg hn, abs_of_pos hd, neg_neg]
  · simp [hn, hdm]

theorem simplify_eq_self (r : rational) (h : normalized r) : simplify r = r := by
  obtain ⟨hpos, hco⟩ := h
  unfold simplify
  rw [hco]
  simp only [Nat.cast_one, Int.ediv_one]
  exact sign_fix_eq_self r hpos

end rational

namespace rational

theorem sign_neg_of_pos {r : rational} (h : 0 < r.denom) :
    sign_neg r = decide (r.num < 0) := by
  unfold sign_neg
  rw [decide_eq_false (not_lt.mpr h.le), Bool.xor_false]

theorem blt_eq_true_iff {a b : rational} (ha : 0 < a.denom) (hb : 0 < b.denom) :
    blt a b = true ↔ a.num * b.denom < b.num * a.denom := by
  unfold blt
  rw [sign_neg_of_pos ha, sign_neg_of_pos hb]
  by_cases hna : a.num < 0 <;> by_cases hnb : b.num < 0
  · have h1 : a.num * b.denom < 0 := mul_neg_of_neg_of_pos hna hb
    have h2 : a.denom * b.num < 0 := mul_neg_of_pos_of_neg ha hnb
    simp [hna, hnb, abs_of_neg h1, abs_of_neg h2]
    constructor <;> intro h <;> nlinarith [h]
  · simp [hna, hnb]
    calc a.num * b.denom < 0 := mul_neg_of_neg_of_pos hna hb
      _ ≤ b.num * a.denom := mul_nonneg (not_lt.mp hnb) ha.le
  · simp [hna, hnb]
    exact le_of_lt
      (calc b.num * a.denom < 0 := mul_neg_of_neg_of_pos hnb ha
        _ ≤ a.num * b.denom := mul_nonneg (not_lt.mp hna) hb.le)
  · have h1 : 0 ≤ a.num * b.denom := mul_nonneg (not_lt.mp hna) hb.le
    have h2 : 0 ≤ a.denom * b.num := mul_nonneg ha.le (not_lt.mp hnb)
    simp [hna, hnb, abs_of_nonneg h1, abs_of_nonneg h2]
    constructor <;> intro h <;> nlinarith [h]

theorem beq_eq_true_iff {a b : rational} (ha : 0 < a.denom) (hb : 0 < b.denom) :
    beq a b = true ↔ a.num * b.denom = b.num * a.denom := by
  unfold beq
  rw [sign_neg_of_pos ha, sign_neg_of_pos hb]
  by_cases hna : a.num < 0 <;> by_cases hnb : b.num < 0
  · have h1 : a.num * b.denom < 0 := mul_neg_of_neg_of_pos hna hb
    have h2 : a.denom * b.num < 0 := mul_neg_of_pos_of_neg ha hnb
    simp [hna, hnb, abs_of_neg h1, abs_of_neg h2]
    constructor <;> intro h <;> nlinarith [h]
  · have h1 : a.num * b.denom < 0 := mul_neg_of_neg_of_pos hna hb
    have h2 : 0 ≤ b.num * a.denom := mul_nonneg (not_lt.mp hnb) ha.le
    simp [hna, hnb]
    nlinarith [h1, h2]
  · have h1 : b.num * a.denom < 0 := mul_neg_of_neg_of_pos hnb ha
    have h2 : 0 ≤ a.num * b.denom := mul_nonneg (not_lt.mp hna) hb.le
    simp [hna, hnb]
    nlinarith [h1, h2]
  · have h1 : 0 ≤ a.num * b.denom := mul_nonneg (not_lt.mp hna) hb.le
    have h2 : 0 ≤ a.denom * b.num := mul_nonneg ha.le (not_lt.mp hnb)
    simp [hna, hnb, abs_of_nonneg h1, abs_of_nonneg h2]
    constructor <;> intro h <;> nlinarith [h]

theorem eq_of_cross_eq {a b : rational} (ha : normalized a) (hb : normalized b)
    (h : a.num * b.denom = b.num * a.denom) : a = b := by
  obtain ⟨had, hac⟩ := ha
  obtain ⟨hbd, hbc⟩ := hb
  have h1 : a.denom ∣ b.denom * a.num := ⟨b.num, by linear_combination h⟩
  have h2 : b.denom ∣ a.denom * b.num := ⟨a.num, by linear_combination -h⟩
  have hd1 : a.denom ∣ b.denom :=
    Int.dvd_of_dvd_mul_left_of_gcd_one h1 (by rwa [Int.gcd_comm] at hac)
  have hd2 : b.denom ∣ a.denom :=
    Int.dvd_of_dvd_mul_left_of_gcd_one h2 (by rwa [Int.gcd_comm] at hbc)
  have hdd : a.denom = b.denom := Int.dvd_antisymm had.le hbd.le hd1 hd2
  have h' := h
  rw [hdd] at h'
  have hnn : a.num = b.num := mul_right_cancel₀ hbd.ne' h'
  calc a = ⟨a.num, a.denom⟩ := rfl
    _ = ⟨b.num, b.denom⟩ := by rw [hnn, hdd]
    _ = b := rfl

theorem incr_normalized (r : rational) (h : normalized r) : normalized (incr r) := by
  obtain ⟨hd, hco⟩ := h
  refine ⟨hd, ?_⟩
  unfold incr
  show Int.gcd (r.num + |r.denom|) r.denom = 1
  rw [abs_of_pos hd]
  have h1 : IsCoprime (r.num + r.denom * 1) r.denom :=
    (Int.gcd_eq_one_iff_coprime.mp hco).add_mul_left_left 1
  rw [mul_one] at h1
  exact Int.gcd_eq_one_iff_coprime.mpr h1

theorem decr_normalized (r : rational) (h : normalized r) : normalized (decr r) := by
  obtain ⟨hd, hco⟩ := h
  refine ⟨hd, ?_⟩
  unfold decr
  show Int.gcd (r.num - |r.denom|) r.denom = 1
  rw [abs_of_pos hd]
  have h1 : IsCoprime (r.num + r.denom * (-1)) r.denom :=
    (Int.gcd_eq_one_iff_coprime.mp hco).add_mul_left_left (-1)
  rw [mul_neg_one, ← sub_eq_add_neg] at h1
  exact Int.gcd_eq_one_iff_coprime.mpr h1

theorem toRat_incr (r : rational) (hd : 0 < r.denom) : toRat (incr r) = toRat r + 1 := by
  unfold incr toRat
  have hdq : (r.denom : ℚ) ≠ 0 := Int.cast_ne_zero.mpr hd.ne'
  show ((r.num + |r.denom| : Int) : ℚ) / (r.denom : ℚ) = _
  rw [abs_of_pos hd]
  push_cast
  rw [add_div, div_self hdq]

theorem toRat_decr (r : rational) (hd : 0 < r.denom) : toRat (decr r) = toRat r - 1 := by
  unfold decr toRat
  have hdq : (r.denom : ℚ) ≠ 0 := Int.cast_ne_zero.mpr hd.ne'
  show ((r.num - |r.denom| : Int) : ℚ) / (r.denom : ℚ) = _
  rw [abs_of_pos hd]
  push_cast
  rw [sub_div, div_self hdq]

end rational

namespace rational

theorem toRat_inj {a b : rational} (ha : normalized a) (hb : normalized b)
    (h : toRat a = toRat b) : a = b := by
  have haq : (a.denom : ℚ) ≠ 0 := Int.cast_ne_zero.mpr ha.1.ne'
  have hbq : (b.denom : ℚ) ≠ 0 := Int.cast_ne_zero.mpr hb.1.ne'
  unfold toRat at h
  rw [div_eq_div_iff haq hbq] at h
  exact eq_of_cross_eq ha hb (by exact_mod_cast h)

theorem simplify_zero_num (d : Int) (hd : d ≠ 0) :
    simplify { num := 0, denom := d } = { num := 0, denom := 1 } := by
  apply toRat_inj (simplify_normalized _ hd) (by decide)
  rw [toRat_simplify]
  unfold toRat
  simp

/-- **C1** — Normalization invariant: every value produced by a public
constructor (pair construction with nonzero denominator, whole-number
construction) or left in place by a mutating operation (`+=`, `-=`, `*=`,
`/=`, `++`, `--`, assignment) has a strictly positive denominator and
coprime numerator and denominator; constructing `(n, d)` with `d ≠ 0` yields
the simplified pair in lowest terms, and constructing `(0, d)` yields
numerator 0 and denominator 1. -/
theorem C1_normalization_invariant :
    (∀ n d : Int, d ≠ 0 →
      make n d = Except.ok (simplify ⟨n, d⟩) ∧ normalized (simplify ⟨n, d⟩)) ∧
    (∀ d : Int, d ≠ 0 → make 0 d = Except.ok { num := 0, denom := 1 }) ∧
    (∀ v : Int, normalized (ofInt v)) ∧
    (∀ a b, normalized a → normalized b → normalized (addAssign a b)) ∧
    (∀ a b, normalized a → normalized b → normalized (subAssign a b)) ∧
    (∀ a b, normalized a → normalized b → normalized (mulAssign a b)) ∧
    (∀ a b c, normalized a → divAssign a b = Except.ok c → normalized c) ∧
    (∀ r, normalized r → normalized (incr r) ∧ normalized ((postIncr r).2)) ∧
    (∀ r, normalized r → normalized (decr r) ∧ normalized ((postDecr r).2)) ∧
    (∀ a b, normalized b → normalized (assign a b)) := by
  refine ⟨?_, ?_, ?_, ?_, ?_, ?_, ?_, ?_, ?_, ?_⟩
  · intro n d hd
    refine ⟨?_, simplify_normalized ⟨n, d⟩ hd⟩
    unfold make
    rw [if_neg hd]
  · intro d hd
    unfold make
    rw [if_neg hd, simplify_zero_num d hd]
  · intro v
    exact ⟨one_pos, by simp [ofInt, Int.gcd_def]⟩
  · intro a b ha hb
    exact simplify_normalized _ (mul_ne_zero ha.1.ne' hb.1.ne')
  · intro a b ha hb
    exact simplify_normalized _ (mul_ne_zero ha.1.ne' hb.1.ne')
  · intro a b ha hb
    exact simplify_normalized _ (mul_ne_zero ha.1.ne' hb.1.ne')
  · intro a b c ha h
    unfold divAssign at h
    split_ifs at h with hb0
    cases h
    exact simplify_normalized _ (mul_ne_zero ha.1.ne' hb0)
  · intro r hr
    exact ⟨incr_normalized r hr, incr_normalized r hr⟩
  · intro r hr
    exact ⟨decr_normalized r hr, decr_normalized r hr⟩
  · intro a b hb
    exact hb

/-- Witness for C1: constructing `(4, -6)` and `(0, -7)` at concrete inputs. -/
theorem C1_normalization_invariant_witness :
    (make 4 (-6) = Except.ok (simplify ⟨4, -6⟩) ∧ normalized (simplify ⟨4, -6⟩)) ∧
    make 0 (-7) = Except.ok { num := 0, denom := 1 } :=
  ⟨C1_normalization_invariant.1 4 (-6) (by decide),
   C1_normalization_invariant.2.1 (-7) (by decide)⟩

/-- **C2** — Arithmetic correctness: each compound operator computes the
standard cross-multiplied numerator/denominator pair and then normalizes, so
each operation returns the exact rational sum, difference, product or
quotient of its operands' values; the four concrete examples from the spec
hold under `operator==`. -/
theorem C2_arithmetic_correctness :
    (∀ a b, addAssign a b =
      simplify ⟨a.num * b.denom + a.denom * b.num, a.denom * b.denom⟩) ∧
    (∀ a b, subAssign a b =
      simplify ⟨a.num * b.denom - a.denom * b.num, a.denom * b.denom⟩) ∧
    (∀ a b, mulAssign a b = simplify ⟨a.num * b.num, a.denom * b.denom⟩) ∧
    (∀ a b, b.num ≠ 0 →
      divAssign a b = Except.ok (simplify ⟨a.num * b.denom, a.denom * b.num⟩)) ∧
    (∀ a b, a.denom ≠ 0 → b.denom ≠ 0 →
      toRat (addAssign a b) = toRat a + toRat b) ∧
    (∀ a b, a.denom ≠ 0 → b.denom ≠ 0 →
      toRat (subAssign a b) = toRat a - toRat b) ∧
    (∀ a b, toRat (mulAssign a b) = toRat a * toRat b) ∧
    (∀ a b c, a.denom ≠ 0 → b.denom ≠ 0 → divAssign a b = Except.ok c →
      toRat c = toRat a / toRat b) ∧
    (∃ x y z, make 2 (-4) = Except.ok x ∧ make 8 6 = Except.ok y ∧
      make 5 6 = Except.ok z ∧ beq (addOp x y).1 z = true) ∧
    (∃ x y z, make 2 (-4) = Except.ok x ∧ make 8 6 = Except.ok y ∧
      make (-11) 6 = Except.ok z ∧ beq (subOp x y).1 z = true) ∧
    (∃ x y z, make 11 (-4) = Except.ok x ∧ make (-12) 1 = Except.ok y ∧
      make 33 1 = Except.ok z ∧ beq (mulOp x y).1 z = true) ∧
    (∃ x y z q, make (-16) 5 = Except.ok x ∧ make 4 (-9) = Except.ok y ∧
      make 36 5 = Except.ok z ∧ divOp x y = Except.ok (q, x, y) ∧ beq q z = true) := by
  refine ⟨fun a b => rfl, fun a b => rfl, fun a b => rfl, ?_, ?_, ?_, ?_, ?_,
    ⟨_, _, _, rfl, rfl, rfl, by decide⟩, ⟨_, _, _, rfl, rfl, rfl, by decide⟩,
    ⟨_, _, _, rfl, rfl, rfl, by decide⟩, ⟨_, _, _, _, rfl, rfl, rfl, rfl, by decide⟩⟩
  · intro a b hb0
    unfold divAssign
    rw [if_neg hb0]
  · intro a b ha hb
    have haq : (a.denom : ℚ) ≠ 0 := Int.cast_ne_zero.mpr ha
    have hbq : (b.denom : ℚ) ≠ 0 := Int.cast_ne_zero.mpr hb
    unfold addAssign
    rw [toRat_simplify]
    unfold toRat
    push_cast
    rw [div_add_div _ _ haq hbq]
  · intro a b ha hb
    have haq : (a.denom : ℚ) ≠ 0 := Int.cast_ne_zero.mpr ha
    have hbq : (b.denom : ℚ) ≠ 0 := Int.cast_ne_zero.mpr hb
    unfold subAssign
    rw [toRat_simplify]
    unfold toRat
    push_cast
    rw [div_sub_div _ _ haq hbq]
  · intro a b
    unfold mulAssign
    rw [toRat_simplify]
    unfold toRat
    push_cast
    rw [div_mul_div_comm]
  · intro a b c ha hb h
    have haq : (a.denom : ℚ) ≠ 0 := Int.cast_ne_zero.mpr ha
    have hbq : (b.denom : ℚ) ≠ 0 := Int.cast_ne_zero.mpr hb
    unfold divAssign at h
    split_ifs at h with hb0
    cases h
    have hnq : (b.num : ℚ) ≠ 0 := Int.cast_ne_zero.mpr hb0
    rw [toRat_simplify]
    unfold toRat
    push_cast
    field_simp

/-- Witness for C2: the division conjunct at concrete inputs. -/
theorem C2_arithmetic_correctness_witness :
    toRat (simplify ⟨(-16) * (-9), 5 * 4⟩) =
      toRat { num := -16, denom := 5 } / toRat { num := 4, denom := -9 } :=
  C2_arithmetic_correctness.2.2.2.2.2.2.2.1 { num := -16, denom := 5 }
    { num := 4, denom := -9 } (simplify ⟨(-16) * (-9), 5 * 4⟩)
    (by decide) (by decide) rfl

/-- **C3** — Division by zero: dividing by any rational whose numerator is 0
(regardless of its denominator) fails with the division-by-zero message, and
the left operand's state at the throw is unchanged; no result value is ever
produced. -/
theorem C3_division_by_zero (a b : rational) (h : b.num = 0) :
    divAssign a b = Except.error ("Cannot divide by zero.", a) ∧
    divOp a b = Except.error ("Cannot divide by zero.", a, b) ∧
    (∀ c, divAssign a b ≠ Except.ok c) := by
  have h1 : divAssign a b = Except.error ("Cannot divide by zero.", a) := by
    unfold divAssign
    rw [if_pos h]
  refine ⟨h1, ?_, ?_⟩
  · unfold divOp
    rw [h1]
  · intro c hc
    rw [h1] at hc
    exact Except.noConfusion hc

/-- Witness for C3 at a concrete divisor with numerator 0 and denominator 5. -/
theorem C3_division_by_zero_witness :
    divAssign (ofInt 1) { num := 0, denom := 5 } =
      Except.error ("Cannot divide by zero.", ofInt 1) :=
  (C3_division_by_zero (ofInt 1) { num := 0, denom := 5 } rfl).1

/-- **C4** — Zero-denominator construction: for every integer `n`,
constructing `(n, 0)` fails with the invalid-argument message and no
instance is ever produced. -/
theorem C4_zero_denominator (n : Int) :
    make n 0 = Except.error "Denominator must be non-zero." ∧
    ∀ r, make n 0 ≠ Except.ok r := by
  have h1 : make n 0 = Except.error "Denominator must be non-zero." := by
    unfold make
    rw [if_pos rfl]
  refine ⟨h1, fun r hr => ?_⟩
  rw [h1] at hr
  exact Except.noConfusion hr

/-- Witness for C4 at numerator 5. -/
theorem C4_zero_denominator_witness :
    make 5 0 = Except.error "Denominator must be non-zero." ∧
    ∀ r, make 5 0 ≠ Except.ok r :=
  C4_zero_denominator 5

end rational

namespace rational

/-- **C5** — Ordering consistency: for all rationals satisfying the class
invariant, exactly one of `a < b`, `a == b`, `a > b` holds, and
`a <= b ⟺ !(a > b)` holds for all rationals by definition of `operator<=`. -/
theorem C5_ordering_consistency (a b : rational) (ha : normalized a) (hb : normalized b) :
    ((blt a b = true ∧ beq a b = false ∧ bgt a b = false) ∨
     (blt a b = false ∧ beq a b = true ∧ bgt a b = false) ∨
     (blt a b = false ∧ beq a b = false ∧ bgt a b = true)) ∧
    (∀ x y : rational, ble x y = !(bgt x y)) := by
  refine ⟨?_, fun x y => rfl⟩
  have hab := blt_eq_true_iff ha.1 hb.1
  have hba := blt_eq_true_iff hb.1 ha.1
  have heq := beq_eq_true_iff ha.1 hb.1
  have hgt : bgt a b = blt b a := rfl
  rcases lt_trichotomy (a.num * b.denom) (b.num * a.denom) with h | h | h
  · left
    refine ⟨hab.mpr h, ?_, ?_⟩
    · exact (Bool.eq_false_or_eq_true (beq a b)).resolve_left
        (fun ht => absurd (heq.mp ht) (ne_of_lt h))
    · rw [hgt]
      exact (Bool.eq_false_or_eq_true (blt b a)).resolve_left
        (fun ht => absurd (hba.mp ht) (lt_asymm h))
  · right; left
    refine ⟨?_, heq.mpr h, ?_⟩
    · exact (Bool.eq_false_or_eq_true (blt a b)).resolve_left
        (fun ht => absurd (hab.mp ht) (by rw [h]; exact lt_irrefl _))
    · rw [hgt]
      exact (Bool.eq_false_or_eq_true (blt b a)).resolve_left
        (fun ht => absurd (hba.mp ht) (by rw [h]; exact lt_irrefl _))
  · right; right
    refine ⟨?_, ?_, ?_⟩
    · exact (Bool.eq_false_or_eq_true (blt a b)).resolve_left
        (fun ht => absurd (hab.mp ht) (lt_asymm h))
    · exact (Bool.eq_false_or_eq_true (beq a b)).resolve_left
        (fun ht => absurd (heq.mp ht) (ne_of_gt h))
    · rw [hgt]
      exact hba.mpr h

/-- Witness for C5 at `0/1` and `1/1`. -/
theorem C5_ordering_consistency_witness :
    (blt (ofInt 0) (ofInt 1) = true ∧ beq (ofInt 0) (ofInt 1) = false ∧
      bgt (ofInt 0) (ofInt 1) = false) ∨
    (blt (ofInt 0) (ofInt 1) = false ∧ beq (ofInt 0) (ofInt 1) = true ∧
      bgt (ofInt 0) (ofInt 1) = false) ∨
    (blt (ofInt 0) (ofInt 1) = false ∧ beq (ofInt 0) (ofInt 1) = false ∧
      bgt (ofInt 0) (ofInt 1) = true) :=
  (C5_ordering_consistency (ofInt 0) (ofInt 1) (by decide) (by decide)).1

/-- **C6** — Equality semantics: `==` is reflexive and symmetric on all
rationals, transitive on rationals satisfying the class invariant, and two
rationals constructed from different unreduced pairs representing the same
value compare equal; in particular `Rational(160,-60) == Rational(-16,6)`. -/
theorem C6_equality_semantics :
    (∀ a : rational, beq a a = true) ∧
    (∀ a b : rational, beq a b = beq b a) ∧
    (∀ a b c : rational, normalized a → normalized b → normalized c →
      beq a b = true → beq b c = true → beq a c = true) ∧
    (∃ x y, make 160 (-60) = Except.ok x ∧ make (-16) 6 = Except.ok y ∧
      beq x y = true) := by
  refine ⟨?_, ?_, ?_, ⟨_, _, rfl, rfl, by decide⟩⟩
  · intro a
    simp [beq, mul_comm]
  · intro a b
    unfold beq
    cases hsa : sign_neg a <;> cases hsb : sign_neg b <;>
      simp [mul_comm, eq_comm]
  · intro a b c ha hb hc hab hbc
    have h1 : a = b := eq_of_cross_eq ha hb ((beq_eq_true_iff ha.1 hb.1).mp hab)
    rw [h1]
    exact hbc

/-- Witness for C6: transitivity applied at `2/1 == 2/1 == 2/1`. -/
theorem C6_equality_semantics_witness : beq (ofInt 2) (ofInt 2) = true :=
  C6_equality_semantics.2.2.1 (ofInt 2) (ofInt 2) (ofInt 2)
    (by decide) (by decide) (by decide) (by decide) (by decide)

/-- **C7** — Increment/decrement: the postfix forms return the pre-state and
leave the prefix result as the new state; the prefix forms add or subtract
`|denominator|` to the numerator directly without renormalizing, the result
is still in lowest terms, and the new value is exactly the old value plus or
minus 1; `Rational(-4,7)++` returns `-4/7` and leaves `3/7`. -/
theorem C7_increment_decrement (r : rational) (h : normalized r) :
    (postIncr r).1 = r ∧ (postDecr r).1 = r ∧
    (postIncr r).2 = incr r ∧ (postDecr r).2 = decr r ∧
    incr r = { num := r.num + |r.denom|, denom := r.denom } ∧
    decr r = { num := r.num - |r.denom|, denom := r.denom } ∧
    normalized (incr r) ∧ normalized (decr r) ∧
    toRat (incr r) = toRat r + 1 ∧ toRat (decr r) = toRat r - 1 ∧
    (∀ x, make (-4) 7 = Except.ok x →
      postIncr x = (x, { num := 3, denom := 7 }) ∧ x = { num := -4, denom := 7 }) := by
  refine ⟨rfl, rfl, rfl, rfl, rfl, rfl, incr_normalized r h, decr_normalized r h,
    toRat_incr r h.1, toRat_decr r h.1, ?_⟩
  intro x hx
  have h0 : make (-4) 7 = Except.ok { num := -4, denom := 7 } := rfl
  rw [h0] at hx
  injection hx with hx2
  subst hx2
  exact ⟨rfl, rfl⟩

/-- Witness for C7 at `0/1`. -/
theorem C7_increment_decrement_witness :
    normalized (incr (ofInt 0)) ∧ toRat (incr (ofInt 0)) = toRat (ofInt 0) + 1 :=
  ⟨(C7_increment_decrement (ofInt 0) (by decide)).2.2.2.2.2.2.1,
   (C7_increment_decrement (ofInt 0) (by decide)).2.2.2.2.2.2.2.2.1⟩

/-- **C8** — Unary operators: on a rational satisfying the class invariant,
unary plus returns `|numerator|/denominator` (the absolute value of the
operand) and unary minus returns `-numerator/denominator` (the additive
inverse). -/
theorem C8_unary_operators (r : rational) (h : normalized r) :
    uplus r = Except.ok { num := |r.num|, denom := r.denom } ∧
    uminus r = Except.ok { num := -r.num, denom := r.denom } ∧
    toRat { num := |r.num|, denom := r.denom } = |toRat r| ∧
    toRat { num := -r.num, denom := r.denom } = -toRat r := by
  obtain ⟨hd, hco⟩ := h
  have habs : |r.denom| = r.denom := abs_of_pos hd
  refine ⟨?_, ?_, ?_, ?_⟩
  · unfold uplus make
    rw [habs, if_neg hd.ne']
    congr 1
    apply simplify_eq_self
    refine ⟨hd, ?_⟩
    show Int.gcd |r.num| r.denom = 1
    rw [Int.gcd_def, Int.natAbs_abs, ← Int.gcd_def]
    exact hco
  · unfold uminus make
    rw [if_neg hd.ne']
    congr 1
    apply simplify_eq_self
    refine ⟨hd, ?_⟩
    show Int.gcd (-r.num) r.denom = 1
    rw [Int.gcd_def, Int.natAbs_neg, ← Int.gcd_def]
    exact hco
  · unfold toRat
    rw [abs_div, Int.cast_abs, abs_of_pos (show (0 : ℚ) < r.denom from by exact_mod_cast hd)]
  · unfold toRat
    push_cast
    rw [neg_div]

/-- Witness for C8 at `-8/5` (the normalized form of 8 over -5). -/
theorem C8_unary_operators_witness :
    uplus { num := -8, denom := 5 } = Except.ok { num := 8, denom := 5 } ∧
    uminus { num := -8, denom := 5 } = Except.ok { num := 8, denom := 5 } :=
  ⟨(C8_unary_operators { num := -8, denom := 5 } (by decide)).1,
   (C8_unary_operators { num := -8, denom := 5 } (by decide)).2.1⟩

/-- **C9** — Binary operators do not modify their operands: each binary form
applies the compound form to a copy of the left operand and both caller
arguments keep their original numerator and denominator fields, in the
success and in the throwing case alike. -/
theorem C9_binary_frame (a b : rational) :
    addOp a b = (addAssign a b, a, b) ∧
    subOp a b = (subAssign a b, a, b) ∧
    mulOp a b = (mulAssign a b, a, b) ∧
    (∀ q, divAssign a b = Except.ok q → divOp a b = Except.ok (q, a, b)) ∧
    (∀ e s, divAssign a b = Except.error (e, s) →
      divOp a b = Except.error (e, a, b)) := by
  refine ⟨rfl, rfl, rfl, ?_, ?_⟩
  · intro q hq
    unfold divOp
    rw [hq]
  · intro e s hs
    unfold divOp
    rw [hs]

/-- Witness for C9: the division branch at `1/1` and `2/1`. -/
theorem C9_binary_frame_witness :
    divOp (ofInt 1) (ofInt 2) =
      Except.ok (simplify ⟨1 * 1, 1 * 2⟩, ofInt 1, ofInt 2) :=
  (C9_binary_frame (ofInt 1) (ofInt 2)).2.2.2.1 _ rfl

/-- **C10** — Equality coincides with structural identity on rationals
satisfying the class invariant: `a == b` holds exactly when the stored
numerators and denominators agree field by field. -/
theorem C10_eq_iff_same_fields (a b : rational) (ha : normalized a) (hb : normalized b) :
    beq a b = true ↔ a.num = b.num ∧ a.denom = b.denom := by
  rw [beq_eq_true_iff ha.1 hb.1]
  constructor
  · intro h
    rw [eq_of_cross_eq ha hb h]
    exact ⟨rfl, rfl⟩
  · rintro ⟨h1, h2⟩
    rw [h1, h2]

/-- Witness for C10 at `3/1`. -/
theorem C10_eq_iff_same_fields_witness :
    beq (ofInt 3) (ofInt 3) = true ↔
      (ofInt 3).num = (ofInt 3).num ∧ (ofInt 3).denom = (ofInt 3).denom :=
  C10_eq_iff_same_fields (ofInt 3) (ofInt 3) (by decide) (by decide)

end rational
